import Mathlib

/-!
Shallow embedding of the HtmlBuilder `HTML::Element` data model and its
recursive serialization algorithm (from `src/include/HTML/Element.h`),
together with the type-gated container flavors (`Head`, `Row`, `Table`)
and the root document constructor.
-/

namespace HTML

/-- One node of the HTML DOM tree, mirroring `HTML::Element`:
tag name `mName`, inline text content `mContent`, attribute map `mAttributes`
(kept as a list sorted by key, mirroring `std::map<std::string, std::string>`
iteration order), children `mChildren` in append order, and the `mbNonVoid`
flag. -/
inductive Element : Type where
  | mk : String → String → List (String × String) → List Element → Bool → Element

def Element.mName : Element → String
  | .mk n _ _ _ _ => n

def Element.mContent : Element → String
  | .mk _ c _ _ _ => c

def Element.mAttributes : Element → List (String × String)
  | .mk _ _ a _ _ => a

def Element.mChildren : Element → List Element
  | .mk _ _ _ cs _ => cs

def Element.mbNonVoid : Element → Bool
  | .mk _ _ _ _ b => b

/-- `HTML_INDENTATION`, the per-level indentation width (default 2). -/
def INDENT_WIDTH : Nat := 2

/-- `std::fill_n(std::ostream_iterator<char>(aStream), aIndentation, ' ')`:
a run of `n` spaces. -/
def indentStr (n : Nat) : String := String.mk (List.replicate n ' ')

/-- The attribute loop of `Element::toStringOpen`: for each attribute a space,
the name, and `="value"` when the value is non-empty. -/
def renderAttrs (attrs : List (String × String)) : String :=
  String.join (attrs.map (fun a => " " ++ a.1 ++ (if a.2 = "" then "" else "=\"" ++ a.2 ++ "\"")))

/-- `Element::toStringOpen`. -/
def toStringOpen (name content : String) (attrs : List (String × String))
    (children : List Element) (nv : Bool) (i : Nat) : String :=
  if name = "" then ""
  else
    indentStr i ++ "<" ++ name ++ renderAttrs attrs ++
      (if content = "" then
        if nv then ">"
        else if children.isEmpty then "/>\n" else ">\n"
      else ">")

/-- `Element::toStringClose`. -/
def toStringClose (name content : String) (children : List Element) (nv : Bool)
    (i : Nat) : String :=
  if name = "" then ""
  else
    (if children.isEmpty then "" else indentStr i) ++
      (if content ≠ "" ∨ children.isEmpty = false ∨ nv = true then "</" ++ name ++ ">\n" else "")

mutual

/-- `Element::toString(stream, indentation)`: open phase, content phase
(`Element::toStringContent`, recursing into children at
`indentation + HTML_INDENTATION`), close phase. -/
def Element.toStringAt (e : Element) (i : Nat) : String :=
  match e with
  | .mk name content attrs children nv =>
    toStringOpen name content attrs children nv i ++
      (if name = "" then indentStr i ++ content ++ "\n"
       else content ++ Element.renderChildren children (i + INDENT_WIDTH)) ++
      toStringClose name content children nv i

/-- The loop of `Element::toStringContent` over `mChildren`. -/
def Element.renderChildren (cs : List Element) (i : Nat) : String :=
  match cs with
  | [] => ""
  | c :: rest => Element.toStringAt c i ++ Element.renderChildren rest i

end

/-- Public `Element::toString()`: render at indentation 0. -/
def Element.toString (e : Element) : String := Element.toStringAt e 0

/-- Byte/codepoint-lexicographic comparison on character lists; on valid UTF-8
this is exactly the `std::less<std::string>` order used by `std::map`. -/
def charListLt : List Char → List Char → Bool
  | _, [] => false
  | [], _ :: _ => true
  | a :: as, b :: bs => if a < b then true else if b < a then false else charListLt as bs

/-- `std::string` `operator<` as a computable comparator. -/
def strLtB (a b : String) : Bool := charListLt a.data b.data

/-- `std::map::operator[]` assignment (`mAttributes[apName] = aValue`):
insert-or-overwrite keeping keys sorted, as the red-black tree does. -/
def mapInsert (k v : String) : List (String × String) → List (String × String)
  | [] => [(k, v)]
  | (k', v') :: rest =>
    if strLtB k k' then (k, v) :: (k', v') :: rest
    else if k = k' then (k, v) :: rest
    else (k', v') :: mapInsert k v rest

/-- `Element(apName, aContent)`: fresh node, empty attributes and children,
`mbNonVoid = false`. -/
def Element.construct (name : String) (content : String) : Element :=
  .mk name content [] [] false

/-- `Element::addAttribute` (the `setAttribute` of the spec). -/
def Element.addAttribute (e : Element) (n v : String) : Element :=
  match e with
  | .mk name content attrs children nv => .mk name content (mapInsert n v attrs) children nv

/-- `Element::operator<<(Element&&)`: append a child, preserving call order. -/
def Element.appendChild (e c : Element) : Element :=
  match e with
  | .mk name content attrs children nv => .mk name content attrs (children ++ [c]) nv

/-- `HTML::Text`: raw content text (unnamed Element). -/
def Text (content : String) : Element := .mk "" content [] [] false

/-- `Element::operator<<(const char*)` and the string overloads: wrap the
string in a `Text` node and append it. -/
def Element.appendText (e : Element) (s : String) : Element := e.appendChild (Text s)

/-- `HTML::Break`: `<br>`. -/
def Break : Element := Element.construct "br" ""

/-- `HTML::Col`: `<td>`, with `mbNonVoid = true`. -/
def Col (content : String) : Element := .mk "td" content [] [] true

/-- `HTML::ColHeader`: `<th>`, with `mbNonVoid = true`. -/
def ColHeader (content : String) : Element := .mk "th" content [] [] true

/-- `HTML::Title`. -/
def Title (content : String) : Element := Element.construct "title" content

/-- `HTML::Style`. -/
def Style (content : String) : Element := Element.construct "style" content

/-- `HTML::Script`: optional `src` attribute. -/
def Script (src : Option String) (content : String) : Element :=
  match src with
  | some s => (Element.construct "script" content).addAttribute "src" s
  | none => Element.construct "script" content

/-- `HTML::Meta` (charset form). -/
def MetaCharset (charset : String) : Element :=
  (Element.construct "meta" "").addAttribute "charset" charset

/-- `HTML::Meta` (name/content form). -/
def MetaNamed (name content : String) : Element :=
  ((Element.construct "meta" "").addAttribute "name" name).addAttribute "content" content

/-- `HTML::Rel`: the `<link>` element, optional `type` attribute. -/
def Rel (rel url : String) (ty : Option String) : Element :=
  match ty with
  | some t =>
    (((Element.construct "link" "").addAttribute "rel" rel).addAttribute "href" url).addAttribute
      "type" t
  | none => ((Element.construct "link" "").addAttribute "rel" rel).addAttribute "href" url

/-- `HTML::Base`: optional `target` attribute. -/
def Base (content url : String) (target : Option String) : Element :=
  match target with
  | some t =>
    ((Element.construct "base" content).addAttribute "href" url).addAttribute "target" t
  | none => (Element.construct "base" content).addAttribute "href" url

/-- The closed set of child kinds `HTML::Head` accepts: its `operator<<` is
deleted for a general `Element&&` and overloaded only for these types. -/
inductive HeadChild : Type where
  | title (content : String)
  | style (content : String)
  | script (src : Option String) (content : String)
  | metaCharset (charset : String)
  | metaNamed (name content : String)
  | rel (rel url : String) (ty : Option String)
  | base (content url : String) (target : Option String)

def HeadChild.toElement : HeadChild → Element
  | .title c => Title c
  | .style c => Style c
  | .script s c => Script s c
  | .metaCharset c => MetaCharset c
  | .metaNamed n c => MetaNamed n c
  | .rel r u t => Rel r u t
  | .base c u t => Base c u t

/-- `HTML::Head`: a `<head>` element whose children can only ever be the
accepted head-child kinds (the type-gate of its `operator<<` overload set). -/
structure Head : Type where
  items : List HeadChild

def Head.new : Head := ⟨[]⟩

/-- The `Head::operator<<` overloads: append one accepted child. -/
def Head.append (h : Head) (c : HeadChild) : Head := ⟨h.items ++ [c]⟩

def Head.toElement (h : Head) : Element :=
  .mk "head" "" [] (h.items.map HeadChild.toElement) false

/-- `HTML::Body`. -/
def Body : Element := Element.construct "body" ""

/-- `Element::Element()`, the constructor reserved for the root `<html>`
element: `mName("html")`, `mChildren{Head(), Body()}`. -/
def Element.root : Element :=
  .mk "html" "" [] [Head.toElement Head.new, Body] false

/-- The closed set of child kinds `HTML::Row` accepts. -/
inductive RowChild : Type where
  | colHeader (content : String)
  | col (content : String)

def RowChild.toElement : RowChild → Element
  | .colHeader c => ColHeader c
  | .col c => Col c

/-- `HTML::Row`: a `<tr>` element whose children can only ever be columns or
column headers. -/
structure Row : Type where
  cells : List RowChild

def Row.new : Row := ⟨[]⟩

/-- The `Row::operator<<` overloads: append one accepted cell. -/
def Row.append (r : Row) (c : RowChild) : Row := ⟨r.cells ++ [c]⟩

def Row.toElement (r : Row) : Element :=
  .mk "tr" "" [] (r.cells.map RowChild.toElement) false

/-- `HTML::Table`: a `<table>` element whose children can only ever be rows. -/
structure Table : Type where
  rows : List Row

def Table.new : Table := ⟨[]⟩

/-- The `Table::operator<<` overload: append one row. -/
def Table.append (t : Table) (r : Row) : Table := ⟨t.rows ++ [r]⟩

def Table.toElement (t : Table) : Element :=
  .mk "table" "" [] (t.rows.map Row.toElement) false

/-- The attribute list is strictly sorted by key in the lexicographic string
order: the `std::map` iteration-order invariant. -/
def AttrsSorted (l : List (String × String)) : Prop :=
  List.Pairwise (fun a b => a.1 < b.1) l

/-- Number of entries of the attribute map holding a given key. -/
def countKey (k : String) : List (String × String) → Nat
  | [] => 0
  | (k', _) :: rest => (if k' = k then 1 else 0) + countKey k rest

/-- Value held by the first entry with the given key. -/
def lookupKey (k : String) : List (String × String) → Option String
  | [] => none
  | (k', v') :: rest => if k = k' then some v' else lookupKey k rest

/-! ### Helper lemmas -/

@[simp]
theorem str_append_empty (s : String) : s ++ "" = s := String.append_empty s

@[simp]
theorem str_empty_append (s : String) : "" ++ s = s := String.empty_append s

@[simp]
theorem str_append_assoc (a b c : String) : a ++ b ++ c = a ++ (b ++ c) := by
  apply String.ext
  simp [String.data_append, List.append_assoc]

@[simp]
theorem gt_nl_literal : (">" : String) ++ "\n" = ">\n" := rfl

@[simp]
theorem selfclose_nl_literal : ("/>" : String) ++ "\n" = "/>\n" := rfl

@[simp]
theorem gt_close_literal (s : String) : (">" : String) ++ ("</" ++ s) = "></" ++ s := by
  rw [← str_append_assoc]
  exact rfl

theorem charListLt_iff_lex : ∀ as bs : List Char,
    charListLt as bs = true ↔ List.Lex (· < ·) as bs
  | [], [] => by
    simp only [charListLt, Bool.false_eq_true, false_iff]
    intro h; cases h
  | [], _ :: _ => by
    simp only [charListLt, true_iff]
    exact List.Lex.nil
  | _ :: _, [] => by
    simp only [charListLt, Bool.false_eq_true, false_iff]
    intro h; cases h
  | a :: as, b :: bs => by
    rw [charListLt]
    by_cases hab : a < b
    · simp only [hab, if_true, true_iff]
      exact List.Lex.rel hab
    · by_cases hba : b < a
      · simp only [hab, hba, if_false, if_true, Bool.false_eq_true, false_iff]
        intro h
        cases h with
        | cons h => exact lt_irrefl _ hba
        | rel h => exact hab h
      · have heq : a = b := le_antisymm (not_lt.mp hba) (not_lt.mp hab)
        subst heq
        simp only [hab, hba, if_false, charListLt_iff_lex as bs]
        constructor
        · exact fun h => List.Lex.cons h
        · intro h
          cases h with
          | cons h => exact h
          | rel h => exact absurd h hab

/-- The computable comparator decides exactly the lexicographic order `<` on
strings. -/
theorem strLtB_iff (a b : String) : strLtB a b = true ↔ a < b := by
  rw [String.lt_iff_toList_lt]
  exact charListLt_iff_lex a.data b.data

theorem strLtB_self (a : String) : strLtB a a = false := by
  cases hb : strLtB a a with
  | false => rfl
  | true => exact absurd ((strLtB_iff a a).mp hb) (lt_irrefl a)

theorem not_lt_of_strLtB_false (a b : String) (h : strLtB a b = false) : ¬ a < b := by
  intro hl
  rw [← strLtB_iff, h] at hl
  cases hl

theorem lt_of_strLtB_false_of_ne (a b : String) (h1 : strLtB a b = false)
    (h2 : a ≠ b) : b < a := by
  rcases lt_trichotomy a b with hlt | heq | hgt
  · exact absurd hlt (not_lt_of_strLtB_false a b h1)
  · exact absurd heq h2
  · exact hgt

theorem toStringAt_mk (name content : String) (attrs : List (String × String))
    (children : List Element) (nv : Bool) (i : Nat) :
    Element.toStringAt (.mk name content attrs children nv) i
      = toStringOpen name content attrs children nv i ++
          (if name = "" then indentStr i ++ content ++ "\n"
           else content ++ Element.renderChildren children (i + INDENT_WIDTH)) ++
          toStringClose name content children nv i := rfl

theorem str_foldl_append (l : List String) (s : String) :
    l.foldl (· ++ ·) s = s ++ l.foldl (· ++ ·) "" := by
  induction l generalizing s with
  | nil => simp [List.foldl]
  | cons x xs ih =>
    simp only [List.foldl]
    rw [ih (s ++ x), ih ("" ++ x), str_empty_append, str_append_assoc]

theorem str_join_cons (x : String) (l : List String) :
    String.join (x :: l) = x ++ String.join l := by
  show (x :: l).foldl (· ++ ·) "" = x ++ l.foldl (· ++ ·) ""
  simp only [List.foldl]
  rw [str_foldl_append l ("" ++ x), str_empty_append]

/-- The content phase renders one block per child, in append order. -/
theorem renderChildren_eq_join (cs : List Element) (i : Nat) :
    Element.renderChildren cs i
      = String.join (cs.map (fun c => Element.toStringAt c i)) := by
  induction cs with
  | nil => rfl
  | cons c rest ih =>
    rw [Element.renderChildren, List.map_cons, str_join_cons, ih]

/-- The string ends with a newline. -/
def EndsNL (s : String) : Prop := ∃ t, s = t ++ "\n"

theorem endsNL_append (s t : String) (h : EndsNL t) : EndsNL (s ++ t) := by
  obtain ⟨u, rfl⟩ := h
  exact ⟨s ++ u, (str_append_assoc s u "\n").symm⟩

/-- Every rendered block is terminated by a newline. -/
theorem toStringAt_endsNL (e : Element) (i : Nat) : EndsNL (Element.toStringAt e i) := by
  obtain ⟨name, content, attrs, children, nv⟩ := e
  rw [toStringAt_mk]
  by_cases hn : name = ""
  · subst hn
    simp only [toStringOpen, toStringClose, if_pos rfl, str_empty_append, str_append_empty]
    exact ⟨indentStr i ++ content, by simp⟩
  · by_cases hclose : content ≠ "" ∨ children.isEmpty = false ∨ nv = true
    · apply endsNL_append
      rw [toStringClose, if_neg hn]
      apply endsNL_append
      rw [if_pos hclose]
      exact ⟨"</" ++ name ++ ">", by simp⟩
    · push_neg at hclose
      obtain ⟨hc, hche, hnv⟩ := hclose
      have hch : children = [] := by
        cases children with
        | nil => rfl
        | cons c cs => simp at hche
      subst hch
      simp only [toStringOpen, toStringClose, hn, if_neg hn, hc, if_pos rfl,
        List.isEmpty_nil, if_true, hnv, Element.renderChildren, str_append_empty,
        str_empty_append, ne_eq, not_true_eq_false, false_or, or_false]
      refine ⟨indentStr i ++ ("<" ++ (name ++ (renderAttrs attrs ++ "/>"))), by simp⟩

theorem foldl_appendChild_mk (cs : List Element) (name content : String)
    (attrs : List (String × String)) (cs0 : List Element) (nv : Bool) :
    cs.foldl Element.appendChild (.mk name content attrs cs0 nv)
      = .mk name content attrs (cs0 ++ cs) nv := by
  induction cs generalizing cs0 with
  | nil => simp
  | cons c rest ih =>
    simp only [List.foldl, Element.appendChild]
    rw [ih (cs0 ++ [c])]
    simp

theorem foldl_addAttribute_shape (ps : List (String × String)) (name content : String)
    (attrs : List (String × String)) (cs : List Element) (nv : Bool) :
    ∃ attrs2, ps.foldl (fun e p => Element.addAttribute e p.1 p.2)
        (Element.mk name content attrs cs nv)
      = Element.mk name content attrs2 cs nv := by
  induction ps generalizing attrs with
  | nil => exact ⟨attrs, rfl⟩
  | cons p rest ih =>
    simp only [List.foldl, Element.addAttribute]
    exact ih (mapInsert p.1 p.2 attrs)

theorem addAttribute_mAttributes (e : Element) (n v : String) :
    (e.addAttribute n v).mAttributes = mapInsert n v e.mAttributes := by
  obtain ⟨name, content, attrs, children, nv⟩ := e
  rfl

theorem mem_mapInsert (k v : String) (l : List (String × String)) :
    ∀ p ∈ mapInsert k v l, p = (k, v) ∨ p ∈ l := by
  induction l with
  | nil =>
    intro p hp
    simp only [mapInsert, List.mem_singleton] at hp
    exact Or.inl hp
  | cons kv rest ih =>
    obtain ⟨k', v'⟩ := kv
    intro p hp
    rw [mapInsert] at hp
    split at hp
    · rcases List.mem_cons.mp hp with h | h
      · exact Or.inl h
      · exact Or.inr h
    · split at hp
      · rcases List.mem_cons.mp hp with h | h
        · exact Or.inl h
        · exact Or.inr (List.mem_cons_of_mem _ h)
      · rcases List.mem_cons.mp hp with h | h
        · exact Or.inr (h ▸ List.mem_cons_self _ _)
        · rcases ih p h with h2 | h2
          · exact Or.inl h2
          · exact Or.inr (List.mem_cons_of_mem _ h2)

theorem mapInsert_sorted (k v : String) (l : List (String × String))
    (h : AttrsSorted l) : AttrsSorted (mapInsert k v l) := by
  induction l with
  | nil =>
    rw [mapInsert]
    exact List.pairwise_singleton _ _
  | cons kv rest ih =>
    obtain ⟨k', v'⟩ := kv
    rw [AttrsSorted, List.pairwise_cons] at h
    obtain ⟨h1, h2⟩ := h
    rw [mapInsert]
    by_cases hb : strLtB k k' = true
    · rw [if_pos hb]
      have hkk : k < k' := (strLtB_iff k k').mp hb
      refine List.Pairwise.cons ?_ (List.Pairwise.cons h1 h2)
      intro p hp
      rcases List.mem_cons.mp hp with rfl | hmem
      · exact hkk
      · exact lt_trans hkk (h1 p hmem)
    · have hbf : strLtB k k' = false := by simpa using hb
      rw [if_neg hb]
      by_cases heq : k = k'
      · rw [if_pos heq]
        subst heq
        exact List.Pairwise.cons h1 h2
      · rw [if_neg heq]
        have hk'k : k' < k := lt_of_strLtB_false_of_ne k k' hbf heq
        refine List.Pairwise.cons ?_ (ih h2)
        intro p hp
        rcases mem_mapInsert k v rest p hp with rfl | hmem
        · exact hk'k
        · exact h1 p hmem

theorem mapInsert_overwrite (k v w : String) (l : List (String × String)) :
    mapInsert k w (mapInsert k v l) = mapInsert k w l := by
  induction l with
  | nil => simp [mapInsert, strLtB_self]
  | cons kv rest ih =>
    obtain ⟨k', v'⟩ := kv
    by_cases hb : strLtB k k' = true
    · simp [mapInsert, hb, strLtB_self]
    · have hbf : strLtB k k' = false := by simpa using hb
      by_cases heq : k = k'
      · subst heq
        simp [mapInsert, strLtB_self]
      · simp [mapInsert, hbf, heq, ih]

theorem countKey_eq_zero (k : String) (l : List (String × String))
    (h : ∀ p ∈ l, p.1 ≠ k) : countKey k l = 0 := by
  induction l with
  | nil => rfl
  | cons kv rest ih =>
    obtain ⟨k', v'⟩ := kv
    rw [countKey, if_neg (h (k', v') (List.mem_cons_self _ _)),
      ih (fun p hp => h p (List.mem_cons_of_mem _ hp))]

theorem countKey_mapInsert (k v : String) (l : List (String × String))
    (h : AttrsSorted l) : countKey k (mapInsert k v l) = 1 := by
  induction l with
  | nil => simp [mapInsert, countKey]
  | cons kv rest ih =>
    obtain ⟨k', v'⟩ := kv
    rw [AttrsSorted, List.pairwise_cons] at h
    obtain ⟨h1, h2⟩ := h
    by_cases hb : strLtB k k' = true
    · have hkk : k < k' := (strLtB_iff k k').mp hb
      have h0 : countKey k rest = 0 :=
        countKey_eq_zero k rest (fun p hp => (lt_trans hkk (h1 p hp)).ne')
      simp [mapInsert, hb, countKey, hkk.ne', h0]
    · have hbf : strLtB k k' = false := by simpa using hb
      by_cases heq : k = k'
      · subst heq
        have h0 : countKey k rest = 0 :=
          countKey_eq_zero k rest (fun p hp => (h1 p hp).ne')
        simp [mapInsert, hbf, countKey, h0]
      · have hk'k : k' < k := lt_of_strLtB_false_of_ne k k' hbf heq
        simp [mapInsert, hbf, heq, countKey, hk'k.ne, ih h2]

theorem lookupKey_mapInsert (k v : String) (l : List (String × String)) :
    lookupKey k (mapInsert k v l) = some v := by
  induction l with
  | nil => simp [mapInsert, lookupKey]
  | cons kv rest ih =>
    obtain ⟨k', v'⟩ := kv
    by_cases hb : strLtB k k' = true
    · simp [mapInsert, hb, lookupKey]
    · have hbf : strLtB k k' = false := by simpa using hb
      by_cases heq : k = k'
      · simp [mapInsert, hbf, heq, lookupKey, strLtB_self]
      · simp [mapInsert, hbf, heq, lookupKey, ih]

@[simp]
theorem indentStr_zero : indentStr 0 = "" := rfl

/-- Does the first character list start the second? -/
def startsWithL : List Char → List Char → Bool
  | [], _ => true
  | _ :: _, [] => false
  | a :: as, b :: bs => if a = b then startsWithL as bs else false

/-- Does the first character list occur contiguously inside the second? -/
def occursIn (needle : List Char) : List Char → Bool
  | [] => startsWithL needle []
  | c :: rest => if startsWithL needle (c :: rest) then true else occursIn needle rest

theorem startsWithL_self_append : ∀ (xs ys : List Char), startsWithL xs (xs ++ ys) = true
  | [], _ => rfl
  | x :: xs, ys => by rw [List.cons_append, startsWithL, if_pos rfl]; exact startsWithL_self_append xs ys

theorem no_split_of_occursIn_false (needle : List Char) :
    ∀ hay : List Char, occursIn needle hay = false → ¬ ∃ A B, hay = A ++ needle ++ B := by
  intro hay
  induction hay with
  | nil =>
    intro h ⟨A, B, hAB⟩
    obtain ⟨hA, hB⟩ := List.append_eq_nil.mp hAB.symm
    obtain ⟨hA2, hn⟩ := List.append_eq_nil.mp hA
    subst hn
    rw [occursIn, startsWithL] at h
    cases h
  | cons c rest ih =>
    intro h ⟨A, B, hAB⟩
    rw [occursIn] at h
    by_cases hs : startsWithL needle (c :: rest) = true
    · rw [if_pos hs] at h
      cases h
    · rw [if_neg hs] at h
      cases A with
      | nil =>
        rw [List.nil_append] at hAB
        exact hs (hAB ▸ startsWithL_self_append needle B)
      | cons a A2 =>
        rw [List.cons_append, List.cons_append, List.cons.injEq] at hAB
        exact ih h ⟨A2, B, hAB.2⟩

/-! ### The claims -/

/-- C1: for every node (with the `std::map` sortedness invariant on its
attribute list), `addAttribute` keeps the attribute list strictly sorted by
name in lexicographic order — hence the renderer, which iterates the list in
order, emits attributes in lexicographic name order regardless of call order —
and adding the same name twice leaves exactly one entry holding the last
value. The final conjunct is the rendered example: setting `type` then `name`
on an input node emits `name` before `type`. -/
theorem addAttribute_sorted_lastWins (e : Element) (n v w : String)
    (h : AttrsSorted e.mAttributes) :
    AttrsSorted ((e.addAttribute n v).mAttributes)
    ∧ (e.addAttribute n v).addAttribute n w = e.addAttribute n w
    ∧ countKey n ((e.addAttribute n v).mAttributes) = 1
    ∧ lookupKey n ((e.addAttribute n v).mAttributes) = some v
    ∧ Element.toString
        (((Element.construct "input" "").addAttribute "type" "text").addAttribute "name" "x")
        = "<input name=\"x\" type=\"text\"/>\n" := by
  refine ⟨?_, ?_, ?_, ?_, rfl⟩
  · rw [addAttribute_mAttributes]
    exact mapInsert_sorted n v _ h
  · obtain ⟨name, content, attrs, children, nv⟩ := e
    simp only [Element.addAttribute]
    rw [mapInsert_overwrite]
  · rw [addAttribute_mAttributes]
    exact countKey_mapInsert n v _ h
  · rw [addAttribute_mAttributes]
    exact lookupKey_mapInsert n v _

/-- C1 witness: `setAttribute("id","a")` then `setAttribute("id","b")` equals a
single `setAttribute("id","b")`. -/
theorem addAttribute_sorted_lastWins_witness :
    ((Element.construct "p" "").addAttribute "id" "a").addAttribute "id" "b"
      = (Element.construct "p" "").addAttribute "id" "b" :=
  (addAttribute_sorted_lastWins (Element.construct "p" "") "id" "a" "b"
    (by simp [AttrsSorted, Element.construct, Element.mAttributes])).2.1

/-- C4: a node with non-empty tag name, empty content, no children and
`forceClosingTag = false` renders at indentation `i` as exactly one line:
`i` spaces, `<`, the tag, the attributes, `/>` and a newline — no closing tag;
and `construct("br")` renders `<br/>\n`. -/
theorem void_selfclose_single_line (name : String) (attrs : List (String × String))
    (i : Nat) (h : name ≠ "") :
    Element.toStringAt (.mk name "" attrs [] false) i
      = indentStr i ++ "<" ++ name ++ renderAttrs attrs ++ "/>\n"
    ∧ Element.toString Break = "<br/>\n" := by
  refine ⟨?_, rfl⟩
  rw [toStringAt_mk, toStringOpen, toStringClose]
  simp [h, Element.renderChildren]

/-- C4 witness: the `<br>` instance. -/
theorem void_selfclose_single_line_witness :
    Element.toStringAt (.mk "br" "" [] [] false) 0
      = indentStr 0 ++ "<" ++ "br" ++ renderAttrs [] ++ "/>\n" :=
  (void_selfclose_single_line "br" [] 0 (by decide)).1

/-- C5: a node with `forceClosingTag = true`, empty content and no children
renders its open tag immediately followed by the closing tag on the same line,
then one newline; an empty table column renders `<td></td>\n`. -/
theorem forceClosing_open_close_same_line (name : String)
    (attrs : List (String × String)) (i : Nat) (h : name ≠ "") :
    Element.toStringAt (.mk name "" attrs [] true) i
      = indentStr i ++ "<" ++ name ++ renderAttrs attrs ++ ">" ++ "</" ++ name ++ ">\n"
    ∧ Element.toString (Col "") = "<td></td>\n" := by
  refine ⟨?_, rfl⟩
  rw [toStringAt_mk, toStringOpen, toStringClose]
  simp [h, Element.renderChildren]

/-- C5 witness: the `<td>` instance. -/
theorem forceClosing_open_close_same_line_witness :
    Element.toStringAt (.mk "td" "" [] [] true) 0
      = indentStr 0 ++ "<" ++ "td" ++ renderAttrs [] ++ ">" ++ "</" ++ "td" ++ ">\n" :=
  (forceClosing_open_close_same_line "td" [] 0 (by decide)).1

/-- C6: a node with non-empty tag name, non-empty content and no children
renders at indentation 0 as a single line: open tag with `>` and no newline,
the content verbatim on the same line, then the closing tag and one newline;
`construct("p", "Hello")` renders `<p>Hello</p>\n`. -/
theorem inline_content_single_line (name content : String)
    (attrs : List (String × String)) (nv : Bool)
    (hn : name ≠ "") (hc : content ≠ "") :
    Element.toStringAt (.mk name content attrs [] nv) 0
      = "<" ++ name ++ renderAttrs attrs ++ ">" ++ content ++ "</" ++ name ++ ">\n"
    ∧ Element.toString (Element.construct "p" "Hello") = "<p>Hello</p>\n" := by
  refine ⟨?_, rfl⟩
  rw [toStringAt_mk, toStringOpen, toStringClose]
  simp [hn, hc, Element.renderChildren]

/-- C6 witness: the `<p>Hello</p>` instance. -/
theorem inline_content_single_line_witness :
    Element.toStringAt (.mk "p" "Hello" [] [] false) 0
      = "<" ++ "p" ++ renderAttrs [] ++ ">" ++ "Hello" ++ "</" ++ "p" ++ ">\n" :=
  (inline_content_single_line "p" "Hello" [] false (by decide) (by decide)).1

/-- C7: a node with empty tag name (a pure text leaf) renders at indentation
`i` as exactly `i` spaces, its content verbatim (unescaped), and one newline,
with no tags and no attribute output; in particular this is how `Text`
renders. -/
theorem text_leaf_renders_verbatim (content : String) (attrs : List (String × String))
    (cs : List Element) (nv : Bool) (i : Nat) :
    Element.toStringAt (.mk "" content attrs cs nv) i = indentStr i ++ content ++ "\n"
    ∧ Element.toStringAt (Text content) i = indentStr i ++ content ++ "\n" := by
  constructor
  · rw [toStringAt_mk, toStringOpen, toStringClose]
    simp
  · rw [show Text content = Element.mk "" content [] [] false from rfl,
      toStringAt_mk, toStringOpen, toStringClose]
    simp

/-- C9: the root document node is `<html>` with exactly two children: the head
container first and the body container second, with empty attributes and
empty content. -/
theorem root_is_html_with_head_body :
    Element.root.mName = "html"
    ∧ Element.root.mChildren = [Head.toElement Head.new, Body]
    ∧ Element.root.mChildren.map Element.mName = ["head", "body"]
    ∧ Element.root.mAttributes = []
    ∧ Element.root.mContent = "" :=
  ⟨rfl, rfl, rfl, rfl, rfl⟩

theorem headChild_tag_mem (c : HeadChild) :
    (HeadChild.toElement c).mName
      ∈ (["title", "style", "script", "meta", "link", "base"] : List String) := by
  cases c with
  | title c => simp [HeadChild.toElement, Title, Element.construct, Element.mName]
  | style c => simp [HeadChild.toElement, Style, Element.construct, Element.mName]
  | script s c =>
    cases s <;>
      simp [HeadChild.toElement, Script, Element.construct, Element.addAttribute, Element.mName]
  | metaCharset c =>
    simp [HeadChild.toElement, MetaCharset, Element.construct, Element.addAttribute, Element.mName]
  | metaNamed n c =>
    simp [HeadChild.toElement, MetaNamed, Element.construct, Element.addAttribute, Element.mName]
  | rel r u t =>
    cases t <;>
      simp [HeadChild.toElement, Rel, Element.construct, Element.addAttribute, Element.mName]
  | base c u t =>
    cases t <;>
      simp [HeadChild.toElement, Base, Element.construct, Element.addAttribute, Element.mName]

theorem rowChild_tag_mem (c : RowChild) :
    (RowChild.toElement c).mName ∈ (["th", "td"] : List String) := by
  cases c with
  | colHeader c => simp [RowChild.toElement, ColHeader, Element.mName]
  | col c => simp [RowChild.toElement, Col, Element.mName]

/-- C8: the type-gated containers only ever hold their fixed accepted child
kinds: appending to the head container is defined only on the closed
`HeadChild` kinds (title/style/script/meta/link/base), to the table-row only
on columns and column headers, and to the table only on rows; every child the
containers can ever contain carries one of the accepted tag names. -/
theorem typeGated_containers_append :
    (∀ (h : Head) (c : HeadChild),
        (Head.append h c).toElement.mChildren
            = h.toElement.mChildren ++ [HeadChild.toElement c]
          ∧ ∀ e ∈ (Head.append h c).toElement.mChildren,
              e.mName ∈ (["title", "style", "script", "meta", "link", "base"] : List String))
    ∧ (∀ (r : Row) (c : RowChild),
        (Row.append r c).toElement.mChildren
            = r.toElement.mChildren ++ [RowChild.toElement c]
          ∧ ∀ e ∈ (Row.append r c).toElement.mChildren,
              e.mName ∈ (["th", "td"] : List String))
    ∧ (∀ (t : Table) (r : Row),
        (Table.append t r).toElement.mChildren
            = t.toElement.mChildren ++ [Row.toElement r]
          ∧ ∀ e ∈ (Table.append t r).toElement.mChildren, e.mName = "tr") := by
  refine ⟨fun h c => ⟨?_, ?_⟩, fun r c => ⟨?_, ?_⟩, fun t r => ⟨?_, ?_⟩⟩
  · simp [Head.append, Head.toElement, Element.mChildren]
  · intro e he
    simp only [Head.append, Head.toElement, Element.mChildren, List.mem_map] at he
    obtain ⟨hc, _, rfl⟩ := he
    exact headChild_tag_mem hc
  · simp [Row.append, Row.toElement, Element.mChildren]
  · intro e he
    simp only [Row.append, Row.toElement, Element.mChildren, List.mem_map] at he
    obtain ⟨hc, _, rfl⟩ := he
    exact rowChild_tag_mem hc
  · simp [Table.append, Table.toElement, Element.mChildren]
  · intro e he
    simp only [Table.append, Table.toElement, Element.mChildren, List.mem_map] at he
    obtain ⟨r2, _, rfl⟩ := he
    rfl

/-- C10: for a pure text leaf, attributes set and children appended through
the builder API are never rendered: the output is only the indentation, the
content, and one newline. -/
theorem text_node_attrs_children_invisible (content : String)
    (ps : List (String × String)) (cs : List Element) (i : Nat) :
    Element.toStringAt
        (cs.foldl Element.appendChild
          (ps.foldl (fun e p => Element.addAttribute e p.1 p.2) (Text content))) i
      = indentStr i ++ content ++ "\n" := by
  obtain ⟨attrs2, hshape⟩ := foldl_addAttribute_shape ps "" content [] [] false
  rw [show Text content = Element.mk "" content [] [] false from rfl, hshape,
    foldl_appendChild_mk, toStringAt_mk, toStringOpen, toStringClose]
  simp

/-- C2 counterexample: an empty-content `<td>` (a `forceClosingTag` node) with
one appended `<br>` child renders its opening tag with no trailing newline, so
the output is not an opening-tag line followed by the child's block and a
closing line as the claim states for every node with children and no
content. -/
theorem container_children_claim_cex :
    Element.toStringAt ((Col "").appendChild Break) 0 = "<td>  <br/>\n</td>\n"
    ∧ Element.toStringAt ((Col "").appendChild Break) 0
        ≠ "<td>\n" ++ Element.toStringAt Break (0 + INDENT_WIDTH) ++ "</td>\n" := by
  exact ⟨rfl, by decide⟩

/-- C2 amended: for every node with non-empty tag name, non-empty children,
no content AND `forceClosingTag = false`, rendering at indentation `i`
produces the opening tag line (`i` spaces, the open tag, a newline), then one
rendered block per child in append order at indentation `i + INDENT_WIDTH`,
then the closing tag line at indentation `i`. -/
theorem container_children_block (name : String) (attrs : List (String × String))
    (cs : List Element) (i : Nat) (hn : name ≠ "") (hc : cs ≠ []) :
    Element.toStringAt (.mk name "" attrs cs false) i
      = indentStr i ++ "<" ++ name ++ renderAttrs attrs ++ ">\n"
          ++ Element.renderChildren cs (i + INDENT_WIDTH)
          ++ indentStr i ++ "</" ++ name ++ ">\n"
    ∧ Element.renderChildren cs (i + INDENT_WIDTH)
        = String.join (cs.map (fun c => Element.toStringAt c (i + INDENT_WIDTH))) := by
  refine ⟨?_, renderChildren_eq_join cs (i + INDENT_WIDTH)⟩
  rw [toStringAt_mk, toStringOpen, toStringClose]
  have hce : cs.isEmpty = false := by
    cases cs with
    | nil => exact absurd rfl hc
    | cons c rest => rfl
  simp [hn, hce]

/-- C2 witness: a `<div>` with one `<p>` child. -/
theorem container_children_block_witness :
    Element.toStringAt (.mk "div" "" [] [Element.construct "p" "A"] false) 0
      = indentStr 0 ++ "<" ++ "div" ++ renderAttrs [] ++ ">\n"
          ++ Element.renderChildren [Element.construct "p" "A"] (0 + INDENT_WIDTH)
          ++ indentStr 0 ++ "</" ++ "div" ++ ">\n" :=
  (container_children_block "div" [] [Element.construct "p" "A"] 0 (by decide)
    (List.cons_ne_nil _ _)).1

/-- C3 counterexample: in `Div("Hi") << Break()` the child `<br>` is rendered
immediately after the inline content on the same line: the output is
`<div>Hi  <br/>\n</div>\n`, and the child's rendered block preceded by a
newline (that is, the child standing on its own line) occurs nowhere in the
output, against the claim that each child is on its own indented line. -/
theorem content_children_claim_cex :
    Element.toStringAt ((Element.construct "div" "Hi").appendChild Break) 0
      = "<div>Hi  <br/>\n</div>\n"
    ∧ ¬ ∃ A B, (Element.toStringAt ((Element.construct "div" "Hi").appendChild Break) 0).data
        = A ++ ("\n" ++ Element.toStringAt Break INDENT_WIDTH).data ++ B :=
  ⟨rfl, no_split_of_occursIn_false _ _ (by rfl)⟩

/-- C3 amended: for every node with non-empty tag name, non-empty content and
non-empty children, rendering emits the content immediately inside the
opening tag on the same line, then the children after the content in append
order at indentation `i + INDENT_WIDTH`; the first child continues the
content's line, and since every rendered child block ends with a newline each
subsequent child starts on its own line. -/
theorem content_then_children (name content : String) (attrs : List (String × String))
    (cs : List Element) (nv : Bool) (i : Nat)
    (hn : name ≠ "") (hc : content ≠ "") (hcs : cs ≠ []) :
    Element.toStringAt (.mk name content attrs cs nv) i
      = indentStr i ++ "<" ++ name ++ renderAttrs attrs ++ ">"
          ++ content ++ Element.renderChildren cs (i + INDENT_WIDTH)
          ++ indentStr i ++ "</" ++ name ++ ">\n"
    ∧ ∀ c ∈ cs, EndsNL (Element.toStringAt c (i + INDENT_WIDTH)) := by
  refine ⟨?_, fun c _ => toStringAt_endsNL c (i + INDENT_WIDTH)⟩
  rw [toStringAt_mk, toStringOpen, toStringClose]
  have hce : cs.isEmpty = false := by
    cases cs with
    | nil => exact absurd rfl hcs
    | cons c rest => rfl
  simp [hn, hc, hce]

/-- C3 witness: the `<div>Hi` with a `<br>` child instance. -/
theorem content_then_children_witness :
    Element.toStringAt (.mk "div" "Hi" [] [Break] false) 0
      = indentStr 0 ++ "<" ++ "div" ++ renderAttrs [] ++ ">"
          ++ "Hi" ++ Element.renderChildren [Break] (0 + INDENT_WIDTH)
          ++ indentStr 0 ++ "</" ++ "div" ++ ">\n" :=
  (content_then_children "div" "Hi" [] [Break] false 0 (by decide) (by decide)
    (List.cons_ne_nil _ _)).1

/-- The spec's end-to-end example 4: a `<div>` with two `<p>` children at
indent 0, indent width 2. -/
theorem div_two_paragraphs_example :
    Element.toString (.mk "div" "" [] [.mk "p" "A" [] [] false, .mk "p" "B" [] [] false] false)
      = "<div>\n  <p>A</p>\n  <p>B</p>\n</div>\n" := rfl

end HTML
